import Mathlib

/-!
Verification of the guest binary analysis and symbolic unwinding subsystem
of kvm-fuzz: a shallow embedding of `src/hypervisor/src/elf_parser.cpp` and
`src/kernel/src/x86/page_table.h`, followed by theorems about the embedded
definitions.

Machine words (`vaddr_t`, `vsize_t`, `uintptr_t`, `uint64_t`) are modelled
as `Nat` reduced modulo `2^64` wherever the C++ arithmetic can wrap.
Fatal assertions (`ASSERT`/`ERROR_ON`, which print a message and abort the
process) are modelled as an absent result: `Option.none`, or
`LookupResult.fatal` for the name-lookup operations.
-/

namespace KvmFuzz

/-- The modulus `2^64` of the 64-bit machine words used throughout. -/
def W : Nat := 18446744073709551616

/-- Truncating 64-bit addition, as performed on `vaddr_t` values. -/
def wadd (a b : Nat) : Nat := (a + b) % W

/-- Wrapping 64-bit subtraction `a - b`, as performed on `vaddr_t` values
(two's complement: `a + (2^64 - b)` truncated). -/
def wsub (a b : Nat) : Nat := (a % W + (W - b % W)) % W

/-- ELF program-header type of a loadable segment (`PT_LOAD`). -/
def PT_LOAD : Nat := 1

/-- ELF program-header type of the interpreter segment (`PT_INTERP`). -/
def PT_INTERP : Nat := 3

/-- ELF object type of a fixed-address executable (`ET_EXEC`). -/
def ET_EXEC : Nat := 2

/-- ELF object type of a position-independent (shared/PIE) image (`ET_DYN`). -/
def ET_DYN : Nat := 3

/-- Constant `numeric_limits<vaddr_t>::max()`, the initial accumulator of the
load-address minimisation in `ElfParser::init`. -/
def VADDR_MAX : Nat := W - 1

/-- Macro `PAGE_CEIL` of `elf_parser.cpp`:
`(((addr) + PAGE_SIZE - 1) & ~(PAGE_SIZE - 1))` on `uint64_t`, with
`PAGE_SIZE = 0x1000`; `~0xFFF` as a 64-bit word is `0xFFFFFFFFFFFFF000`. -/
def PAGE_CEIL (addr : Nat) : Nat := ((addr + 4095) % W) &&& 0xFFFFFFFFFFFFF000

/-- One parsed program header, `segment_t` (the `data` pointer into the
mapped file is not part of the model). -/
structure segment_t where
  seg_type : Nat
  flags : Nat
  offset : Nat
  vaddr : Nat
  paddr : Nat
  filesize : Nat
  memsize : Nat
  align : Nat
deriving DecidableEq, Repr

/-- One parsed section header, `section_t` (the `data` pointer is not part
of the model). -/
structure section_t where
  name : String
  sec_type : Nat
  flags : Nat
  addr : Nat
  offset : Nat
  size : Nat
  link : Nat
  info : Nat
  addralign : Nat
  entsize : Nat
deriving DecidableEq, Repr

/-- One parsed symbol record, `symbol_t`. -/
structure symbol_t where
  name : String
  sym_type : Nat
  binding : Nat
  visibility : Nat
  shndx : Nat
  value : Nat
  size : Nat
deriving DecidableEq, Repr

/-- One step of the segment loop of `ElfParser::init` (lines 66-89):
for a `PT_LOAD` segment, fold `m_initial_brk` up by
`PAGE_CEIL(vaddr + memsize)` and `m_load_addr` down by `vaddr`;
other segment types leave both accumulators unchanged. -/
def init_load_brk_step (acc : Nat × Nat) (seg : segment_t) : Nat × Nat :=
  if seg.seg_type = PT_LOAD then
    (min acc.1 seg.vaddr, max acc.2 (PAGE_CEIL (wadd seg.vaddr seg.memsize)))
  else acc

/-- The `(m_load_addr, m_initial_brk)` pair computed by the segment loop of
`ElfParser::init`, starting from `numeric_limits<vaddr_t>::max()` and `0`. -/
def init_load_brk (phdrs : List segment_t) : Nat × Nat :=
  phdrs.foldl init_load_brk_step (VADDR_MAX, 0)

/-- The unwinder's register identifiers (`DwarfReg`): the sixteen x86-64
general-purpose registers in DWARF numbering plus the synthetic
return-address slot. Modelled from the spec: the enum's declaration
(`elf_debug.h`) is not under `src/`; only the names used by
`kvm_to_dwarf_regs` matter here. -/
inductive DwarfReg where
  | Rax | Rdx | Rcx | Rbx | Rsi | Rdi | Rbp | Rsp
  | R8 | R9 | R10 | R11 | R12 | R13 | R14 | R15
  | ReturnAddress
deriving DecidableEq, Repr

/-- The unwinder's register file: the `vsize_t regs[DwarfReg::MAX]` array,
as a total map from register identifier to 64-bit value. -/
def RegFile : Type := DwarfReg → Nat

/-- The virtual CPU register snapshot `struct kvm_regs` (general-purpose
registers, instruction pointer and flags, all `__u64`). -/
structure kvm_regs where
  rax : Nat
  rbx : Nat
  rcx : Nat
  rdx : Nat
  rsi : Nat
  rdi : Nat
  rsp : Nat
  rbp : Nat
  r8 : Nat
  r9 : Nat
  r10 : Nat
  r11 : Nat
  r12 : Nat
  r13 : Nat
  r14 : Nat
  r15 : Nat
  rip : Nat
  rflags : Nat
deriving DecidableEq, Repr

/-- Function `kvm_to_dwarf_regs` (elf_parser.cpp lines 266-284), exactly as written
in the source: note that the source assigns `kregs.rdx` to slot
`DwarfReg::Rcx` (line 269), so `kregs.rcx` is never read. -/
def kvm_to_dwarf_regs (kregs : kvm_regs) : RegFile := fun r =>
  match r with
  | .Rax => kregs.rax
  | .Rdx => kregs.rdx
  | .Rcx => kregs.rdx
  | .Rbx => kregs.rbx
  | .Rsi => kregs.rsi
  | .Rdi => kregs.rdi
  | .Rbp => kregs.rbp
  | .Rsp => kregs.rsp
  | .R8 => kregs.r8
  | .R9 => kregs.r9
  | .R10 => kregs.r10
  | .R11 => kregs.r11
  | .R12 => kregs.r12
  | .R13 => kregs.r13
  | .R14 => kregs.r14
  | .R15 => kregs.r15
  | .ReturnAddress => kregs.rip

/-- Result of a name-lookup operation. `fatal` models the process-aborting
assertion `ASSERT(false, "not found ...")` that the source reaches when no
element with the requested name exists. -/
inductive LookupResult (α : Type) where
  | found : α → LookupResult α
  | fatal : LookupResult α
deriving DecidableEq

/-- The state of an `ElfParser` after `init`, restricted to the fields the
analysed operations touch. `m_debug` stands for the companion
`ElfDebug` engine's `next_frame(regs, mmu)` step (its source,
`elf_debug.cpp`, is outside the analysed tree); it is kept fully abstract:
a function that either produces the caller's register file or reports that
no further frame exists, with the `Mmu` collaborator folded in. -/
structure ElfParser where
  m_type : Nat
  m_entry : Nat
  m_load_addr : Nat
  m_initial_brk : Nat
  m_segments : List segment_t
  m_sections : List section_t
  m_symbols : List symbol_t
  m_debug : RegFile → Option RegFile

/-- The scan loop of `ElfParser::section_limits` (lines 231-236): return
the half-open interval of the first section with the given name, or abort
on the final `ASSERT(false, ...)` when none matches. -/
def section_limits_go (name : String) : List section_t → LookupResult (Nat × Nat)
  | [] => .fatal
  | s :: rest =>
    if s.name = name then .found (s.addr, wadd s.addr s.size)
    else section_limits_go name rest

/-- Method `ElfParser::section_limits`. -/
def ElfParser.section_limits (e : ElfParser) (name : String) : LookupResult (Nat × Nat) :=
  section_limits_go name e.m_sections

/-- The scan loop of `ElfParser::symbol_limits` (lines 238-243). -/
def symbol_limits_go (name : String) : List symbol_t → LookupResult (Nat × Nat)
  | [] => .fatal
  | s :: rest =>
    if s.name = name then .found (s.value, wadd s.value s.size)
    else symbol_limits_go name rest

/-- Method `ElfParser::symbol_limits`. -/
def ElfParser.symbol_limits (e : ElfParser) (name : String) : LookupResult (Nat × Nat) :=
  symbol_limits_go name e.m_symbols

/-- The scan loop of `ElfParser::addr_to_symbol` (lines 249-257): the first
symbol with `value <= addr && addr < value + size` (64-bit addition), if
any; the boolean return plus out-parameter of the source is an `Option`. -/
def addr_to_symbol_go (addr : Nat) : List symbol_t → Option symbol_t
  | [] => none
  | s :: rest =>
    if s.value ≤ addr ∧ addr < wadd s.value s.size then some s
    else addr_to_symbol_go addr rest

/-- Method `ElfParser::addr_to_symbol`. -/
def ElfParser.addr_to_symbol (e : ElfParser) (addr : Nat) : Option symbol_t :=
  addr_to_symbol_go addr e.m_symbols

/-- Method `ElfParser::set_load_addr` (lines 166-185): fatal on a non-PIE image;
otherwise add `diff = load_addr - m_load_addr` (wrapping) to the entry
point, the initial break, every segment's virtual and physical address,
every section's virtual address and every symbol's value, and store the
new load address. -/
def ElfParser.set_load_addr (e : ElfParser) (load_addr : Nat) : Option ElfParser :=
  if e.m_type = ET_DYN then
    some { e with
      m_load_addr := load_addr % W
      m_entry := wadd e.m_entry (wsub load_addr e.m_load_addr)
      m_initial_brk := wadd e.m_initial_brk (wsub load_addr e.m_load_addr)
      m_segments := e.m_segments.map fun s =>
        { s with vaddr := wadd s.vaddr (wsub load_addr e.m_load_addr),
                 paddr := wadd s.paddr (wsub load_addr e.m_load_addr) }
      m_sections := e.m_sections.map fun s =>
        { s with addr := wadd s.addr (wsub load_addr e.m_load_addr) }
      m_symbols := e.m_symbols.map fun s =>
        { s with value := wadd s.value (wsub load_addr e.m_load_addr) } }
  else none

/-- Mask `PHYS_MASK` of `page_table.h`: the physical-address bit range of a
page-table entry (bits 12..51). -/
def PHYS_MASK : Nat := 0x000FFFFFFFFFF000

/-- Complement mask `~PHYS_MASK` as a 64-bit word: the flag bit range (bits 0..11 and
52..63). -/
def NOT_PHYS_MASK : Nat := 0xFFF0000000000FFF

/-- Macro `PTL4_INDEX(addr) = (addr >> 39) & (512 - 1)`. -/
def PTL4_INDEX (addr : Nat) : Nat := (addr >>> 39) &&& 511

/-- Macro `PTL3_INDEX(addr) = (addr >> 30) & (512 - 1)`. -/
def PTL3_INDEX (addr : Nat) : Nat := (addr >>> 30) &&& 511

/-- Macro `PTL2_INDEX(addr) = (addr >> 21) & (512 - 1)`. -/
def PTL2_INDEX (addr : Nat) : Nat := (addr >>> 21) &&& 511

/-- Macro `PTL1_INDEX(addr) = (addr >> 12) & (512 - 1)`. -/
def PTL1_INDEX (addr : Nat) : Nat := (addr >>> 12) &&& 511

/-- Macro `PAGE_OFFSET(addr) = addr & ~PTL1_MASK`, where
`PTL1_MASK = ~(0x1000 - 1)`, so `~PTL1_MASK` is `0xFFF` as a 64-bit
word. -/
def PAGE_OFFSET (addr : Nat) : Nat := addr &&& 0xFFF

/-- One x86-64 page-table entry (`class PageTableEntry`), an 8-byte raw
value. -/
structure PageTableEntry where
  m_raw : Nat
deriving DecidableEq, Repr

/-- Method `PageTableEntry::frame_base`: `m_raw & PHYS_MASK`. -/
def PageTableEntry.frame_base (e : PageTableEntry) : Nat := e.m_raw &&& PHYS_MASK

/-- Method `PageTableEntry::set_frame_base` (lines 64-68): assert the base has no
bits outside `PHYS_MASK` (fatal otherwise), clear the physical-address
bits of `m_raw` and or the base in. -/
def PageTableEntry.set_frame_base (e : PageTableEntry) (base : Nat) : Option PageTableEntry :=
  if base &&& PHYS_MASK = base then
    some { m_raw := (e.m_raw &&& NOT_PHYS_MASK) ||| base }
  else none

/-- Method `PageTableEntry::set_flags` (lines 70-75): assert the flags have no
bits inside `PHYS_MASK` (fatal otherwise), clear the flag bits of `m_raw`
and or the flags in. -/
def PageTableEntry.set_flags (e : PageTableEntry) (page_flags : Nat) : Option PageTableEntry :=
  if page_flags &&& NOT_PHYS_MASK = page_flags then
    some { m_raw := (e.m_raw &&& PHYS_MASK) ||| page_flags }
  else none

/-- The in-place PIE adjustment both `get_stacktrace` loops perform after
recording a return address: for a position-independent image, subtract the
load address from the `ReturnAddress` slot. -/
def pie_adjust (e : ElfParser) (regs : RegFile) : RegFile :=
  if e.m_type = ET_DYN then
    Function.update regs DwarfReg.ReturnAddress
      (wsub (regs DwarfReg.ReturnAddress) e.m_load_addr)
  else regs

/-- The do-while loop of the single-image `ElfParser::get_stacktrace`
(lines 304-314), with `fuel = num_frames - i - 1` iterations allowed
beyond the unconditional first push: record the return address, adjust it
for PIE, and continue while the frame budget allows, `next_frame` finds a
caller, and the new return address lies inside the `.text` limits. -/
def get_stacktrace_go (e : ElfParser) (lo hi : Nat) : Nat → RegFile → List Nat
  | 0, regs => [regs DwarfReg.ReturnAddress]
  | fuel + 1, regs =>
    regs DwarfReg.ReturnAddress ::
      match e.m_debug (pie_adjust e regs) with
      | none => []
      | some regs2 =>
        if lo ≤ regs2 DwarfReg.ReturnAddress ∧ regs2 DwarfReg.ReturnAddress < hi then
          get_stacktrace_go e lo hi fuel regs2
        else []

/-- Single-image `ElfParser::get_stacktrace` (lines 286-317): convert the
register snapshot, look up the `.text` limits (fatal if the image has no
`.text` section), then walk. -/
def ElfParser.get_stacktrace (e : ElfParser) (kregs : kvm_regs) (num_frames : Nat) :
    Option (List Nat) :=
  match e.section_limits ".text" with
  | .found (lo, hi) =>
    some (get_stacktrace_go e lo hi (num_frames - 1) (kvm_to_dwarf_regs kregs))
  | .fatal => none

/-- Function `elf_with_addr_in_text` (lines 319-326): the first image whose `.text`
limits contain the address (`some (some e)`), `some none` when no image
matches (the source's `nullptr`), and `none` for the fatal assertion
inside `section_limits` when a scanned image has no `.text` section. -/
def elf_with_addr_in_text : List ElfParser → Nat → Option (Option ElfParser)
  | [], _ => some none
  | e :: rest, addr =>
    match e.section_limits ".text" with
    | .fatal => none
    | .found (lo, hi) =>
      if lo ≤ addr ∧ addr < hi then some (some e)
      else elf_with_addr_in_text rest addr

/-- The do-while loop of the multi-image `ElfParser::get_stacktrace`
(lines 340-352): find the owning image of the current return address
(stop with the accumulated trace if there is none), record the
(address, image) pair, adjust for that image's PIE load address, and ask
that image's debug engine for the next frame while the budget allows. -/
def get_stacktrace_multi_go : List ElfParser → Nat → RegFile → Option (List (Nat × ElfParser))
  | elfs, 0, regs =>
    match elf_with_addr_in_text elfs (regs DwarfReg.ReturnAddress) with
    | none => none
    | some none => some []
    | some (some elf) => some [(regs DwarfReg.ReturnAddress, elf)]
  | elfs, fuel + 1, regs =>
    match elf_with_addr_in_text elfs (regs DwarfReg.ReturnAddress) with
    | none => none
    | some none => some []
    | some (some elf) =>
      match elf.m_debug (pie_adjust elf regs) with
      | none => some [(regs DwarfReg.ReturnAddress, elf)]
      | some regs2 =>
        match get_stacktrace_multi_go elfs fuel regs2 with
        | none => none
        | some rest => some ((regs DwarfReg.ReturnAddress, elf) :: rest)

/-- Multi-image static `ElfParser::get_stacktrace` (lines 328-355). -/
def ElfParser.get_stacktrace_multi (elfs : List ElfParser) (kregs : kvm_regs)
    (num_frames : Nat) : Option (List (Nat × ElfParser)) :=
  get_stacktrace_multi_go elfs (num_frames - 1) (kvm_to_dwarf_regs kregs)

/-! ### Helper lemmas -/

/-- Conjunction distributes over disjunction on bits: `&&&` over `|||`. -/
lemma land_lor_right (x y m : Nat) : (x ||| y) &&& m = (x &&& m) ||| (y &&& m) :=
  Nat.eq_of_testBit_eq fun i => by
    simp [Nat.testBit_land, Nat.testBit_lor, Bool.and_or_distrib_right]

/-- 64-bit addition does not truncate below the modulus. -/
lemma wadd_of_lt (a b : Nat) (h : a + b < W) : wadd a b = a + b := by
  unfold wadd W at *
  omega

/-- Shifting two values by a common 64-bit delta leaves their wrapping
difference unchanged. -/
lemma wsub_wadd_wadd (x y d : Nat) : wsub (wadd x d) (wadd y d) = wsub x y := by
  unfold wadd wsub W
  omega

/-- Composing a shift from load address `0` to `a` with a shift from
`a % 2^64` to `b` equals the direct shift from `0` to `b`. -/
lemma wadd_wsub_chain (x a b : Nat) :
    wadd (wadd x (wsub a 0)) (wsub b (a % W)) = wadd x (wsub b 0) := by
  unfold wadd wsub W
  omega

/-- A right shift followed by a 9-bit mask extracts a 9-bit field. -/
lemma shiftRight_and_511 (x k : Nat) : (x >>> k) &&& 511 = x / 2 ^ k % 512 := by
  have h := Nat.and_pow_two_sub_one_eq_mod (x >>> k) 9
  norm_num at h
  rw [h, Nat.shiftRight_eq_div_pow]

/-! ### C1 -/

/-- C1: the kvm-to-dwarf conversion is claimed to map each hardware
register to the unwinder slot of the same name; however the source
(elf_parser.cpp line 269) assigns `kregs.rdx` to slot `DwarfReg::Rcx` for
every snapshot, and on the concrete snapshot with `rcx = 3`, `rdx = 5`
(all other registers 0) the `Rcx` slot receives 5, not the hardware `rcx`
value 3. -/
theorem kvm_to_dwarf_regs_rcx_slot_gets_rdx :
    (∀ kregs : kvm_regs, kvm_to_dwarf_regs kregs DwarfReg.Rcx = kregs.rdx) ∧
    kvm_to_dwarf_regs ⟨0, 0, 3, 5, 0, 0, 0, 0, 0, 0, 0, 0, 0, 0, 0, 0, 0, 0⟩
      DwarfReg.Rcx = 5 ∧
    (⟨0, 0, 3, 5, 0, 0, 0, 0, 0, 0, 0, 0, 0, 0, 0, 0, 0, 0⟩ : kvm_regs).rcx = 3 :=
  ⟨fun _ => rfl, rfl, rfl⟩

/-! ### C8 -/

/-- C8: for every virtual address, the four page-table index macros
extract the 9-bit fields at bits 47..39, 38..30, 29..21 and 20..12 (each
below 512), `PAGE_OFFSET` extracts bits 11..0 (below 4096), and
recombining the five fields reconstructs the address modulo `2^48`. -/
theorem page_table_index_split (addr : Nat) :
    PTL4_INDEX addr = addr / 2 ^ 39 % 512 ∧ PTL4_INDEX addr < 512 ∧
    PTL3_INDEX addr = addr / 2 ^ 30 % 512 ∧ PTL3_INDEX addr < 512 ∧
    PTL2_INDEX addr = addr / 2 ^ 21 % 512 ∧ PTL2_INDEX addr < 512 ∧
    PTL1_INDEX addr = addr / 2 ^ 12 % 512 ∧ PTL1_INDEX addr < 512 ∧
    PAGE_OFFSET addr = addr % 4096 ∧ PAGE_OFFSET addr < 4096 ∧
    (((PTL4_INDEX addr * 512 + PTL3_INDEX addr) * 512 + PTL2_INDEX addr) * 512
        + PTL1_INDEX addr) * 4096 + PAGE_OFFSET addr = addr % 2 ^ 48 := by
  have h4 : PTL4_INDEX addr = addr / 2 ^ 39 % 512 := shiftRight_and_511 addr 39
  have h3 : PTL3_INDEX addr = addr / 2 ^ 30 % 512 := shiftRight_and_511 addr 30
  have h2 : PTL2_INDEX addr = addr / 2 ^ 21 % 512 := shiftRight_and_511 addr 21
  have h1 : PTL1_INDEX addr = addr / 2 ^ 12 % 512 := shiftRight_and_511 addr 12
  have h0 : PAGE_OFFSET addr = addr % 4096 := by
    have h := Nat.and_pow_two_sub_one_eq_mod addr 12
    norm_num at h
    exact h
  refine ⟨h4, ?_, h3, ?_, h2, ?_, h1, ?_, h0, ?_, ?_⟩ <;>
    simp only [h4, h3, h2, h1, h0] <;> omega

/-! ### C7 -/

/-- C7: writing a well-formed frame base and then well-formed flags into a
page-table entry leaves the physical-address bits equal to the base and
the flag bits equal to the flags with no interference; a base with bits
outside `PHYS_MASK` (e.g. a misaligned base) makes `set_frame_base`
fatal, and flags with bits inside `PHYS_MASK` make `set_flags` fatal. -/
theorem page_entry_base_flags_roundtrip (e : PageTableEntry) (base page_flags : Nat) :
    (base &&& PHYS_MASK = base → page_flags &&& NOT_PHYS_MASK = page_flags →
      ∃ e2, (e.set_frame_base base).bind (fun e1 => e1.set_flags page_flags) = some e2 ∧
        e2.frame_base = base ∧ e2.m_raw &&& NOT_PHYS_MASK = page_flags) ∧
    (base &&& PHYS_MASK ≠ base → e.set_frame_base base = none) ∧
    (page_flags &&& NOT_PHYS_MASK ≠ page_flags → e.set_flags page_flags = none) := by
  have hmm : PHYS_MASK &&& NOT_PHYS_MASK = 0 := by decide
  have hmm' : NOT_PHYS_MASK &&& PHYS_MASK = 0 := by decide
  have hpp : PHYS_MASK &&& PHYS_MASK = PHYS_MASK := by decide
  have hnn : NOT_PHYS_MASK &&& NOT_PHYS_MASK = NOT_PHYS_MASK := by decide
  refine ⟨fun hb hf => ?_, fun hb => ?_, fun hf => ?_⟩
  · have hb0 : base &&& NOT_PHYS_MASK = 0 := by
      calc base &&& NOT_PHYS_MASK = (base &&& PHYS_MASK) &&& NOT_PHYS_MASK := by rw [hb]
        _ = base &&& (PHYS_MASK &&& NOT_PHYS_MASK) := Nat.land_assoc ..
        _ = 0 := by rw [hmm, Nat.and_zero]
    have hf0 : page_flags &&& PHYS_MASK = 0 := by
      calc page_flags &&& PHYS_MASK = (page_flags &&& NOT_PHYS_MASK) &&& PHYS_MASK := by
            rw [hf]
        _ = page_flags &&& (NOT_PHYS_MASK &&& PHYS_MASK) := Nat.land_assoc ..
        _ = 0 := by rw [hmm', Nat.and_zero]
    have hraw1 : ((e.m_raw &&& NOT_PHYS_MASK) ||| base) &&& PHYS_MASK = base := by
      rw [land_lor_right, Nat.land_assoc, hmm', Nat.and_zero, Nat.zero_or, hb]
    refine ⟨⟨(((e.m_raw &&& NOT_PHYS_MASK) ||| base) &&& PHYS_MASK) ||| page_flags⟩,
      ?_, ?_, ?_⟩
    · simp [PageTableEntry.set_frame_base, PageTableEntry.set_flags, hb, hf]
    · show (((((e.m_raw &&& NOT_PHYS_MASK) ||| base) &&& PHYS_MASK) ||| page_flags)
          &&& PHYS_MASK) = base
      rw [land_lor_right, Nat.land_assoc, hpp, hraw1, hf0, Nat.or_zero]
    · show (((((e.m_raw &&& NOT_PHYS_MASK) ||| base) &&& PHYS_MASK) ||| page_flags)
          &&& NOT_PHYS_MASK) = page_flags
      rw [land_lor_right, hraw1, hb0, Nat.zero_or, hf]
  · simp [PageTableEntry.set_frame_base, hb]
  · simp [PageTableEntry.set_flags, hf]

/-- Witness for C7: a zeroed entry, base `0x1000`, flags
`Present | ReadWrite | NoExecute`, and the misaligned base `0x1001`. -/
theorem page_entry_base_flags_roundtrip_witness :
    (∃ e2, (PageTableEntry.set_frame_base ⟨0⟩ 0x1000).bind
        (fun e1 => e1.set_flags 0x8000000000000003) = some e2 ∧
      e2.frame_base = 0x1000 ∧ e2.m_raw &&& NOT_PHYS_MASK = 0x8000000000000003) ∧
    PageTableEntry.set_frame_base ⟨0⟩ 0x1001 = none := by
  refine ⟨(page_entry_base_flags_roundtrip ⟨0⟩ 0x1000 0x8000000000000003).1
    (by decide) (by decide), ?_⟩
  exact (page_entry_base_flags_roundtrip ⟨0⟩ 0x1001 0).2.1 (by decide)

/-! ### C2 -/

/-- The virtual addresses of the loadable (`PT_LOAD`) segments, in program
header order. -/
def loadable_vaddrs (phdrs : List segment_t) : List Nat :=
  (phdrs.filter fun s => s.seg_type = PT_LOAD).map fun s => s.vaddr

/-- The page-ceilings of `vaddr + memsize` of the loadable segments, in
program header order. -/
def loadable_page_ends (phdrs : List segment_t) : List Nat :=
  (phdrs.filter fun s => s.seg_type = PT_LOAD).map fun s =>
    PAGE_CEIL (wadd s.vaddr s.memsize)

/-- The segment loop folds `min` over the loadable virtual addresses and
`max` over the loadable page-ceiling ends, from arbitrary accumulators. -/
lemma init_load_brk_foldl (phdrs : List segment_t) (la bk : Nat) :
    phdrs.foldl init_load_brk_step (la, bk) =
      ((loadable_vaddrs phdrs).foldl min la, (loadable_page_ends phdrs).foldl max bk) := by
  induction phdrs generalizing la bk with
  | nil => simp [loadable_vaddrs, loadable_page_ends]
  | cons s rest ih =>
    by_cases h : s.seg_type = PT_LOAD <;>
      simp [loadable_vaddrs, loadable_page_ends, init_load_brk_step, h, ih,
        List.filter_cons]

/-- A `min`-fold is bounded by its initial accumulator. -/
lemma foldl_min_le_init (L : List Nat) (la : Nat) : L.foldl min la ≤ la := by
  induction L generalizing la with
  | nil => simp
  | cons x xs ih => exact le_trans (ih (min la x)) (min_le_left la x)

/-- A `min`-fold is a lower bound of the list. -/
lemma foldl_min_le_mem (L : List Nat) (la : Nat) : ∀ x ∈ L, L.foldl min la ≤ x := by
  induction L generalizing la with
  | nil => simp
  | cons y ys ih =>
    intro x hx
    rcases List.mem_cons.mp hx with h | h
    · subst h
      exact le_trans (foldl_min_le_init ys (min la x)) (min_le_right la x)
    · exact ih (min la y) x h

/-- A `min`-fold is an element of the list or the initial accumulator. -/
lemma foldl_min_mem_or (L : List Nat) (la : Nat) :
    L.foldl min la ∈ L ∨ L.foldl min la = la := by
  induction L generalizing la with
  | nil => simp
  | cons y ys ih =>
    rcases ih (min la y) with h | h
    · exact Or.inl (List.mem_cons_of_mem y h)
    · rcases Nat.le_total la y with hle | hle
      · right
        rw [List.foldl_cons, h]
        exact min_eq_left hle
      · left
        rw [List.foldl_cons, h, min_eq_right hle]
        exact List.mem_cons_self y ys

/-- A `max`-fold dominates its initial accumulator. -/
lemma foldl_max_ge_init (L : List Nat) (bk : Nat) : bk ≤ L.foldl max bk := by
  induction L generalizing bk with
  | nil => simp
  | cons x xs ih => exact le_trans (le_max_left bk x) (ih (max bk x))

/-- A `max`-fold is an upper bound of the list. -/
lemma foldl_max_ge_mem (L : List Nat) (bk : Nat) : ∀ x ∈ L, x ≤ L.foldl max bk := by
  induction L generalizing bk with
  | nil => simp
  | cons y ys ih =>
    intro x hx
    rcases List.mem_cons.mp hx with h | h
    · subst h
      exact le_trans (le_max_right bk x) (foldl_max_ge_init ys (max bk x))
    · exact ih (max bk y) x h

/-- A `max`-fold is an element of the list or the initial accumulator. -/
lemma foldl_max_mem_or (L : List Nat) (bk : Nat) :
    L.foldl max bk ∈ L ∨ L.foldl max bk = bk := by
  induction L generalizing bk with
  | nil => simp
  | cons y ys ih =>
    rcases ih (max bk y) with h | h
    · exact Or.inl (List.mem_cons_of_mem y h)
    · rcases Nat.le_total y bk with hle | hle
      · right
        rw [List.foldl_cons, h]
        exact max_eq_left hle
      · left
        rw [List.foldl_cons, h, max_eq_right hle]
        exact List.mem_cons_self y ys

/-- C2: for a program-header table whose fields fit in 64 bits and which
contains at least one loadable segment, the `(m_load_addr, m_initial_brk)`
pair computed by `ElfParser::init` is exactly (the minimum virtual address
among loadable segments, the maximum loadable page-ceiling segment end);
non-loadable segments participate in neither value. -/
theorem init_min_load_addr_max_brk (phdrs : List segment_t)
    (hw : ∀ s ∈ phdrs, s.vaddr < W)
    (hex : ∃ s ∈ phdrs, s.seg_type = PT_LOAD) :
    ((init_load_brk phdrs).1 ∈ loadable_vaddrs phdrs ∧
      ∀ v ∈ loadable_vaddrs phdrs, (init_load_brk phdrs).1 ≤ v) ∧
    ((init_load_brk phdrs).2 ∈ loadable_page_ends phdrs ∧
      ∀ v ∈ loadable_page_ends phdrs, v ≤ (init_load_brk phdrs).2) := by
  obtain ⟨s, hs, hstype⟩ := hex
  have hsf : s ∈ phdrs.filter fun s => s.seg_type = PT_LOAD :=
    List.mem_filter.mpr ⟨hs, by simpa using hstype⟩
  have hv : s.vaddr ∈ loadable_vaddrs phdrs := List.mem_map_of_mem _ hsf
  have he : PAGE_CEIL (wadd s.vaddr s.memsize) ∈ loadable_page_ends phdrs :=
    List.mem_map_of_mem _ hsf
  unfold init_load_brk
  rw [init_load_brk_foldl]
  refine ⟨⟨?_, fun v hv2 => foldl_min_le_mem _ _ v hv2⟩,
    ⟨?_, fun v hv2 => foldl_max_ge_mem _ _ v hv2⟩⟩
  · rcases foldl_min_mem_or (loadable_vaddrs phdrs) VADDR_MAX with h | h
    · exact h
    · have h1 := foldl_min_le_mem (loadable_vaddrs phdrs) VADDR_MAX s.vaddr hv
      have h2 : s.vaddr < W := hw s hs
      have h3 : s.vaddr = (loadable_vaddrs phdrs).foldl min VADDR_MAX := by
        unfold VADDR_MAX W at *
        omega
      rw [← h3]
      exact hv
  · rcases foldl_max_mem_or (loadable_page_ends phdrs) 0 with h | h
    · exact h
    · have h1 := foldl_max_ge_mem (loadable_page_ends phdrs) 0 _ he
      have h3 : PAGE_CEIL (wadd s.vaddr s.memsize) =
          (loadable_page_ends phdrs).foldl max 0 := by omega
      rw [← h3]
      exact he

/-- Example program-header table for the C2 witness: two loadable segments
and one `PT_INTERP` segment whose end (`0x8010`, page-ceiled `0x9000`)
would dominate the break if non-loadable segments participated. -/
def c2_phdrs : List segment_t :=
  [⟨PT_LOAD, 5, 0, 0x1000, 0x1000, 0x10, 0x20, 0x1000⟩,
   ⟨PT_INTERP, 4, 0x2000, 0x8000, 0x8000, 0x10, 0x10, 1⟩,
   ⟨PT_LOAD, 6, 0x100, 0x3000, 0x3000, 0x500, 0x800, 0x1000⟩]

/-- Witness for C2: on `c2_phdrs` the loop yields load address `0x1000`
and initial break `0x4000 = PAGE_CEIL(0x3000 + 0x800)`. -/
theorem init_min_load_addr_max_brk_witness :
    (((init_load_brk c2_phdrs).1 ∈ loadable_vaddrs c2_phdrs ∧
      ∀ v ∈ loadable_vaddrs c2_phdrs, (init_load_brk c2_phdrs).1 ≤ v) ∧
    ((init_load_brk c2_phdrs).2 ∈ loadable_page_ends c2_phdrs ∧
      ∀ v ∈ loadable_page_ends c2_phdrs, v ≤ (init_load_brk c2_phdrs).2)) ∧
    init_load_brk c2_phdrs = (0x1000, 0x4000) :=
  ⟨init_min_load_addr_max_brk c2_phdrs (by decide) (by decide), by decide⟩

/-! ### C3 and C4 -/

/-- A list is `Forall₂`-related to its image under a map that realises the
relation pointwise. -/
lemma forall₂_map_self {α β : Type} (f : α → β) (R : α → β → Prop) (l : List α)
    (h : ∀ a ∈ l, R a (f a)) : List.Forall₂ R l (l.map f) := by
  induction l with
  | nil => simp
  | cons x xs ih =>
    exact List.Forall₂.cons (h x (by simp)) (ih fun a ha => h a (by simp [ha]))

/-- Every pair of `l.zip (l.map f)` is of the form `(a, f a)`. -/
lemma zip_map_self {α β : Type} (f : α → β) (l : List α) :
    ∀ p ∈ l.zip (l.map f), p.2 = f p.1 := by
  induction l with
  | nil => simp
  | cons x xs ih =>
    intro p hp
    simp only [List.map_cons, List.zip_cons_cons, List.mem_cons] at hp
    rcases hp with h | h
    · subst h
      rfl
    · exact ih p h

/-- C3: on a position-independent image, one `set_load_addr` call succeeds
and shifts the entry point, the initial break, every segment's virtual and
physical address, every section's virtual address and every symbol's value
by the same wrapping delta `load_addr - m_load_addr`, stores the new load
address, and consequently the wrapping difference between any two symbol
values is unchanged. -/
theorem set_load_addr_uniform_shift (e : ElfParser) (a : Nat)
    (hdyn : e.m_type = ET_DYN) :
    ∃ e', e.set_load_addr a = some e' ∧
      e'.m_entry = wadd e.m_entry (wsub a e.m_load_addr) ∧
      e'.m_initial_brk = wadd e.m_initial_brk (wsub a e.m_load_addr) ∧
      e'.m_load_addr = a % W ∧
      List.Forall₂ (fun s s' : segment_t =>
          s'.vaddr = wadd s.vaddr (wsub a e.m_load_addr) ∧
          s'.paddr = wadd s.paddr (wsub a e.m_load_addr))
        e.m_segments e'.m_segments ∧
      List.Forall₂ (fun s s' : section_t =>
          s'.addr = wadd s.addr (wsub a e.m_load_addr))
        e.m_sections e'.m_sections ∧
      List.Forall₂ (fun s s' : symbol_t =>
          s'.value = wadd s.value (wsub a e.m_load_addr))
        e.m_symbols e'.m_symbols ∧
      ∀ p ∈ e.m_symbols.zip e'.m_symbols, ∀ q ∈ e.m_symbols.zip e'.m_symbols,
        wsub q.2.value p.2.value = wsub q.1.value p.1.value := by
  unfold ElfParser.set_load_addr
  rw [if_pos hdyn]
  refine ⟨_, rfl, rfl, rfl, rfl, ?_, ?_, ?_, ?_⟩
  · exact forall₂_map_self _ _ _ fun s _ => ⟨rfl, rfl⟩
  · exact forall₂_map_self _ _ _ fun s _ => rfl
  · exact forall₂_map_self _ _ _ fun s _ => rfl
  · intro p hp q hq
    rw [zip_map_self _ _ p hp, zip_map_self _ _ q hq]
    exact wsub_wadd_wadd q.1.value p.1.value _

/-- Example position-independent image for the C3 and C4 witnesses. -/
def c3_elf : ElfParser :=
  { m_type := ET_DYN
    m_entry := 0x100
    m_load_addr := 0
    m_initial_brk := 0x3000
    m_segments := [⟨PT_LOAD, 5, 0, 0x0, 0x0, 0x10, 0x20, 0x1000⟩]
    m_sections := [⟨".text", 1, 6, 0x400, 0x400, 0x100, 0, 0, 16, 0⟩]
    m_symbols := [⟨"main", 2, 1, 0, 1, 0x400, 0x40⟩, ⟨"helper", 2, 1, 0, 1, 0x500, 0x30⟩]
    m_debug := fun _ => none }

/-- Witness for C3: the uniform shift at the concrete PIE image `c3_elf`
relocated to `0x7f0000000000`. -/
theorem set_load_addr_uniform_shift_witness :
    ∃ e', c3_elf.set_load_addr 0x7f0000000000 = some e' ∧
      e'.m_entry = wadd c3_elf.m_entry (wsub 0x7f0000000000 c3_elf.m_load_addr) ∧
      e'.m_initial_brk =
        wadd c3_elf.m_initial_brk (wsub 0x7f0000000000 c3_elf.m_load_addr) ∧
      e'.m_load_addr = 0x7f0000000000 % W ∧
      List.Forall₂ (fun s s' : segment_t =>
          s'.vaddr = wadd s.vaddr (wsub 0x7f0000000000 c3_elf.m_load_addr) ∧
          s'.paddr = wadd s.paddr (wsub 0x7f0000000000 c3_elf.m_load_addr))
        c3_elf.m_segments e'.m_segments ∧
      List.Forall₂ (fun s s' : section_t =>
          s'.addr = wadd s.addr (wsub 0x7f0000000000 c3_elf.m_load_addr))
        c3_elf.m_sections e'.m_sections ∧
      List.Forall₂ (fun s s' : symbol_t =>
          s'.value = wadd s.value (wsub 0x7f0000000000 c3_elf.m_load_addr))
        c3_elf.m_symbols e'.m_symbols ∧
      ∀ p ∈ c3_elf.m_symbols.zip e'.m_symbols,
        ∀ q ∈ c3_elf.m_symbols.zip e'.m_symbols,
          wsub q.2.value p.2.value = wsub q.1.value p.1.value :=
  set_load_addr_uniform_shift c3_elf 0x7f0000000000 rfl

/-- C4: relocating a position-independent image whose parse-time load
address is `0` to `A` and then to `B` yields exactly the state of
relocating it directly to `B`. -/
theorem set_load_addr_composes (e : ElfParser) (A B : Nat)
    (hdyn : e.m_type = ET_DYN) (h0 : e.m_load_addr = 0) :
    (e.set_load_addr A).bind (fun e1 => e1.set_load_addr B) = e.set_load_addr B := by
  obtain ⟨t, en, la, bk, segs, secs, syms, dbg⟩ := e
  simp only [ElfParser.m_type] at hdyn
  simp only [ElfParser.m_load_addr] at h0
  subst hdyn
  subst h0
  simp only [ElfParser.set_load_addr, if_pos, Option.some_bind, Option.some.injEq,
    ElfParser.mk.injEq]
  refine ⟨trivial, wadd_wsub_chain .., trivial, wadd_wsub_chain .., ?_, ?_, ?_, trivial⟩
  · rw [List.map_map]
    refine List.map_congr_left fun s _ => ?_
    cases s
    simp [Function.comp, wadd_wsub_chain]
  · rw [List.map_map]
    refine List.map_congr_left fun s _ => ?_
    cases s
    simp [Function.comp, wadd_wsub_chain]
  · rw [List.map_map]
    refine List.map_congr_left fun s _ => ?_
    cases s
    simp [Function.comp, wadd_wsub_chain]

/-- Witness for C4: relocating `c3_elf` to `0x1000` and then to
`0x555555000000` equals relocating it directly to `0x555555000000`. -/
theorem set_load_addr_composes_witness :
    (c3_elf.set_load_addr 0x1000).bind (fun e1 => e1.set_load_addr 0x555555000000) =
      c3_elf.set_load_addr 0x555555000000 :=
  set_load_addr_composes c3_elf 0x1000 0x555555000000 rfl rfl

/-! ### C5 -/

/-- When some section carries the requested name, the scan returns the
interval of the first one (the one `find?` locates). -/
lemma section_limits_go_found (name : String) (l : List section_t)
    (h : ∃ s ∈ l, s.name = name) :
    ∃ s, l.find? (fun s => s.name = name) = some s ∧
      section_limits_go name l = .found (s.addr, wadd s.addr s.size) := by
  induction l with
  | nil => simp at h
  | cons x xs ih =>
    by_cases hx : x.name = name
    · exact ⟨x, by simp [List.find?_cons, hx], by simp [section_limits_go, hx]⟩
    · have h' : ∃ s ∈ xs, s.name = name := by
        obtain ⟨s, hs, hsn⟩ := h
        rcases List.mem_cons.mp hs with he | he
        · subst he
          exact absurd hsn hx
        · exact ⟨s, he, hsn⟩
      obtain ⟨s, hf, hgo⟩ := ih h'
      exact ⟨s, by simp [List.find?_cons, hx, hf], by simp [section_limits_go, hx, hgo]⟩

/-- When no section carries the requested name, the scan ends in the fatal
assertion. -/
lemma section_limits_go_fatal (name : String) (l : List section_t)
    (h : ∀ s ∈ l, s.name ≠ name) : section_limits_go name l = .fatal := by
  induction l with
  | nil => rfl
  | cons x xs ih =>
    have hx : ¬ x.name = name := h x (by simp)
    simp only [section_limits_go, if_neg hx]
    exact ih fun s hs => h s (by simp [hs])

/-- Symbol analogue of `section_limits_go_found`. -/
lemma symbol_limits_go_found (name : String) (l : List symbol_t)
    (h : ∃ s ∈ l, s.name = name) :
    ∃ s, l.find? (fun s => s.name = name) = some s ∧
      symbol_limits_go name l = .found (s.value, wadd s.value s.size) := by
  induction l with
  | nil => simp at h
  | cons x xs ih =>
    by_cases hx : x.name = name
    · exact ⟨x, by simp [List.find?_cons, hx], by simp [symbol_limits_go, hx]⟩
    · have h' : ∃ s ∈ xs, s.name = name := by
        obtain ⟨s, hs, hsn⟩ := h
        rcases List.mem_cons.mp hs with he | he
        · subst he
          exact absurd hsn hx
        · exact ⟨s, he, hsn⟩
      obtain ⟨s, hf, hgo⟩ := ih h'
      exact ⟨s, by simp [List.find?_cons, hx, hf], by simp [symbol_limits_go, hx, hgo]⟩

/-- Symbol analogue of `section_limits_go_fatal`. -/
lemma symbol_limits_go_fatal (name : String) (l : List symbol_t)
    (h : ∀ s ∈ l, s.name ≠ name) : symbol_limits_go name l = .fatal := by
  induction l with
  | nil => rfl
  | cons x xs ih =>
    have hx : ¬ x.name = name := h x (by simp)
    simp only [symbol_limits_go, if_neg hx]
    exact ih fun s hs => h s (by simp [hs])

/-- C5 counterexample: on a concrete image that has no section and no
symbol named "missing", both lookups reach the process-aborting
`ASSERT(false, ...)` (modelled by `LookupResult.fatal`); they do not
deliver a recoverable not-found result to the caller. -/
theorem limits_missing_name_aborts :
    c3_elf.section_limits "missing" = LookupResult.fatal ∧
    c3_elf.symbol_limits "missing" = LookupResult.fatal :=
  ⟨rfl, rfl⟩

/-- C5 (amended): for an existing name, `section_limits`/`symbol_limits`
return the half-open interval `[addr, addr + size)` of the first matching
element; for a missing name they fail with the fatal assertion (a process
abort), not a recoverable not-found result. -/
theorem limits_found_or_fatal (e : ElfParser) (name : String) :
    ((∃ s ∈ e.m_sections, s.name = name) →
      ∃ s, e.m_sections.find? (fun s => s.name = name) = some s ∧
        e.section_limits name = .found (s.addr, wadd s.addr s.size)) ∧
    ((∀ s ∈ e.m_sections, s.name ≠ name) → e.section_limits name = .fatal) ∧
    ((∃ s ∈ e.m_symbols, s.name = name) →
      ∃ s, e.m_symbols.find? (fun s => s.name = name) = some s ∧
        e.symbol_limits name = .found (s.value, wadd s.value s.size)) ∧
    ((∀ s ∈ e.m_symbols, s.name ≠ name) → e.symbol_limits name = .fatal) :=
  ⟨fun h => section_limits_go_found name e.m_sections h,
   fun h => section_limits_go_fatal name e.m_sections h,
   fun h => symbol_limits_go_found name e.m_symbols h,
   fun h => symbol_limits_go_fatal name e.m_symbols h⟩

/-- Witness for C5 (amended): on `c3_elf`, the ".text" section interval is
`[0x400, 0x500)`, the "helper" symbol interval is `[0x500, 0x530)`, and a
missing name is fatal. -/
theorem limits_found_or_fatal_witness :
    c3_elf.section_limits ".text" = .found (0x400, 0x500) ∧
    c3_elf.symbol_limits "helper" = .found (0x500, 0x530) ∧
    c3_elf.section_limits "nosuch" = .fatal := by
  obtain ⟨s, hf, hgo⟩ := (limits_found_or_fatal c3_elf ".text").1 (by decide)
  obtain ⟨s2, hf2, hgo2⟩ := (limits_found_or_fatal c3_elf "helper").2.2.1 (by decide)
  have hfx : c3_elf.m_sections.find? (fun s => s.name = ".text") =
      some (⟨".text", 1, 6, 0x400, 0x400, 0x100, 0, 0, 16, 0⟩ : section_t) := by decide
  have hfx2 : c3_elf.m_symbols.find? (fun s => s.name = "helper") =
      some (⟨"helper", 2, 1, 0, 1, 0x500, 0x30⟩ : symbol_t) := by decide
  rw [hfx] at hf
  rw [hfx2] at hf2
  injection hf with hs
  injection hf2 with hs2
  subst hs
  subst hs2
  refine ⟨?_, ?_, (limits_found_or_fatal c3_elf "nosuch").2.1 (by decide)⟩
  · rw [hgo]
    decide
  · rw [hgo2]
    decide

/-! ### C6 -/

/-- The scan of `addr_to_symbol` succeeds exactly when some symbol's
half-open interval contains the address, and any returned symbol is a
containing member of the list (symbol intervals are assumed not to wrap
around the 64-bit address space). -/
lemma addr_to_symbol_go_spec (addr : Nat) (l : List symbol_t)
    (hov : ∀ s ∈ l, s.value + s.size < W) :
    ((addr_to_symbol_go addr l).isSome = true ↔
      ∃ s ∈ l, s.value ≤ addr ∧ addr < s.value + s.size) ∧
    (∀ s, addr_to_symbol_go addr l = some s →
      s ∈ l ∧ s.value ≤ addr ∧ addr < s.value + s.size) := by
  induction l with
  | nil => simp [addr_to_symbol_go]
  | cons x xs ih =>
    have hx : wadd x.value x.size = x.value + x.size := wadd_of_lt _ _ (hov x (by simp))
    have ih' := ih fun s hs => hov s (by simp [hs])
    by_cases hc : x.value ≤ addr ∧ addr < x.value + x.size
    · have hgo : addr_to_symbol_go addr (x :: xs) = some x := by
        rw [show addr_to_symbol_go addr (x :: xs) =
          if x.value ≤ addr ∧ addr < wadd x.value x.size then some x
          else addr_to_symbol_go addr xs from rfl, hx, if_pos hc]
      refine ⟨?_, ?_⟩
      · rw [hgo]
        exact ⟨fun _ => ⟨x, by simp, hc⟩, fun _ => rfl⟩
      · intro s hs
        rw [hgo] at hs
        injection hs with h
        subst h
        exact ⟨by simp, hc⟩
    · have hgo : addr_to_symbol_go addr (x :: xs) = addr_to_symbol_go addr xs := by
        rw [show addr_to_symbol_go addr (x :: xs) =
          if x.value ≤ addr ∧ addr < wadd x.value x.size then some x
          else addr_to_symbol_go addr xs from rfl, hx, if_neg hc]
      refine ⟨?_, ?_⟩
      · rw [hgo, ih'.1]
        constructor
        · rintro ⟨s, hs, hp⟩
          exact ⟨s, by simp [hs], hp⟩
        · rintro ⟨s, hs, hp⟩
          rcases List.mem_cons.mp hs with h | h
          · subst h
            exact absurd hp hc
          · exact ⟨s, h, hp⟩
      · intro s hs
        rw [hgo] at hs
        obtain ⟨hm, hp⟩ := ih'.2 s hs
        exact ⟨by simp [hm], hp⟩

/-- C6: `addr_to_symbol` succeeds exactly when some symbol's half-open
interval `[value, value + size)` contains the address, and any symbol it
returns is such a containing symbol of the image; a size-0 interval is
empty, so such a symbol can never match. -/
theorem addr_to_symbol_iff_contains (e : ElfParser) (addr : Nat)
    (hov : ∀ s ∈ e.m_symbols, s.value + s.size < W) :
    ((e.addr_to_symbol addr).isSome = true ↔
      ∃ s ∈ e.m_symbols, s.value ≤ addr ∧ addr < s.value + s.size) ∧
    (∀ s, e.addr_to_symbol addr = some s →
      s ∈ e.m_symbols ∧ s.value ≤ addr ∧ addr < s.value + s.size) :=
  addr_to_symbol_go_spec addr e.m_symbols hov

/-- Example image for the C6 witness: a symbol at `[0x1000, 0x1040)` and a
size-0 symbol at `0x5000`. -/
def c6_elf : ElfParser :=
  { m_type := ET_EXEC
    m_entry := 0x1000
    m_load_addr := 0x1000
    m_initial_brk := 0x2000
    m_segments := []
    m_sections := []
    m_symbols := [⟨"f", 2, 1, 0, 1, 0x1000, 0x40⟩, ⟨"z", 2, 1, 0, 1, 0x5000, 0⟩]
    m_debug := fun _ => none }

/-- Witness for C6: address `0x1020` resolves, `0x1040` and `0xFFF` do
not, and the size-0 symbol matches not even its own value `0x5000`. -/
theorem addr_to_symbol_iff_contains_witness :
    (c6_elf.addr_to_symbol 0x1020).isSome = true ∧
    (c6_elf.addr_to_symbol 0x1040).isSome = false ∧
    (c6_elf.addr_to_symbol 0xFFF).isSome = false ∧
    (c6_elf.addr_to_symbol 0x5000).isSome = false := by
  have h40 := (addr_to_symbol_iff_contains c6_elf 0x1040 (by decide)).1
  have hff := (addr_to_symbol_iff_contains c6_elf 0xFFF (by decide)).1
  have h50 := (addr_to_symbol_iff_contains c6_elf 0x5000 (by decide)).1
  refine ⟨(addr_to_symbol_iff_contains c6_elf 0x1020 (by decide)).1.mpr (by decide),
    ?_, ?_, ?_⟩
  · cases h : (c6_elf.addr_to_symbol 0x1040).isSome
    · rfl
    · exact absurd (h40.mp h) (by decide)
  · cases h : (c6_elf.addr_to_symbol 0xFFF).isSome
    · rfl
    · exact absurd (hff.mp h) (by decide)
  · cases h : (c6_elf.addr_to_symbol 0x5000).isSome
    · rfl
    · exact absurd (h50.mp h) (by decide)

/-! ### C9 and C10 -/

/-- When every image has a `.text` section, scanning for the owning image
never hits the fatal assertion. -/
lemma elf_with_addr_in_text_ne_none (elfs : List ElfParser) (addr : Nat)
    (htext : ∀ e ∈ elfs, ∃ lo hi, e.section_limits ".text" = .found (lo, hi)) :
    elf_with_addr_in_text elfs addr ≠ none := by
  induction elfs with
  | nil => simp [elf_with_addr_in_text]
  | cons x rest ih =>
    obtain ⟨lo, hi, hsl⟩ := htext x (by simp)
    have hstep : elf_with_addr_in_text (x :: rest) addr =
        match x.section_limits ".text" with
        | .fatal => none
        | .found (lo, hi) =>
          if lo ≤ addr ∧ addr < hi then some (some x)
          else elf_with_addr_in_text rest addr := rfl
    rw [hstep, hsl]
    by_cases hc : lo ≤ addr ∧ addr < hi
    · simp [hc]
    · simp only [if_neg hc]
      exact ih fun e he => htext e (by simp [he])

/-- A positive owning-image answer names a member image whose `.text`
limits contain the address. -/
lemma elf_with_addr_in_text_sound (elfs : List ElfParser) (addr : Nat) (e : ElfParser)
    (h : elf_with_addr_in_text elfs addr = some (some e)) :
    e ∈ elfs ∧ ∃ lo hi, e.section_limits ".text" = .found (lo, hi) ∧
      lo ≤ addr ∧ addr < hi := by
  induction elfs with
  | nil => simp [elf_with_addr_in_text] at h
  | cons x rest ih =>
    have hstep : elf_with_addr_in_text (x :: rest) addr =
        match x.section_limits ".text" with
        | .fatal => none
        | .found (lo, hi) =>
          if lo ≤ addr ∧ addr < hi then some (some x)
          else elf_with_addr_in_text rest addr := rfl
    rw [hstep] at h
    cases hsl : x.section_limits ".text" with
    | fatal =>
      rw [hsl] at h
      exact absurd h (by simp)
    | found p =>
      obtain ⟨lo, hi⟩ := p
      rw [hsl] at h
      have h' : (if lo ≤ addr ∧ addr < hi then some (some x)
          else elf_with_addr_in_text rest addr) = some (some e) := h
      by_cases hc : lo ≤ addr ∧ addr < hi
      · rw [if_pos hc] at h'
        injection h' with h1
        injection h1 with h2
        subst h2
        exact ⟨by simp, lo, hi, hsl, hc.1, hc.2⟩
      · rw [if_neg hc] at h'
        obtain ⟨hm, hrest⟩ := ih h'
        exact ⟨by simp [hm], hrest⟩

/-- Invariant of the multi-image walk: with every image owning a `.text`
section the walk never aborts, every recorded pair is tagged with the
first owning image of its address, the trace respects the frame budget,
and an unowned starting address yields the empty trace. -/
lemma multi_go_spec (elfs : List ElfParser)
    (htext : ∀ e ∈ elfs, ∃ lo hi, e.section_limits ".text" = .found (lo, hi)) :
    ∀ (fuel : Nat) (regs : RegFile),
      ∃ t, get_stacktrace_multi_go elfs fuel regs = some t ∧
        (∀ p ∈ t, elf_with_addr_in_text elfs p.1 = some (some p.2)) ∧
        t.length ≤ fuel + 1 ∧
        (elf_with_addr_in_text elfs (regs DwarfReg.ReturnAddress) = some none →
          t = []) := by
  intro fuel
  induction fuel with
  | zero =>
    intro regs
    cases hE : elf_with_addr_in_text elfs (regs DwarfReg.ReturnAddress) with
    | none => exact absurd hE (elf_with_addr_in_text_ne_none elfs _ htext)
    | some o =>
      cases o with
      | none =>
        exact ⟨[], by simp [get_stacktrace_multi_go, hE], by simp, by simp,
          fun _ => rfl⟩
      | some elf =>
        refine ⟨[(regs DwarfReg.ReturnAddress, elf)],
          by simp [get_stacktrace_multi_go, hE], ?_, by simp, ?_⟩
        · intro p hp
          rcases List.mem_singleton.mp hp with h
          subst h
          exact hE
        · intro hcontra
          simp at hcontra
  | succ fuel ih =>
    intro regs
    cases hE : elf_with_addr_in_text elfs (regs DwarfReg.ReturnAddress) with
    | none => exact absurd hE (elf_with_addr_in_text_ne_none elfs _ htext)
    | some o =>
      cases o with
      | none =>
        exact ⟨[], by simp [get_stacktrace_multi_go, hE], by simp, by simp,
          fun _ => rfl⟩
      | some elf =>
        cases hD : elf.m_debug (pie_adjust elf regs) with
        | none =>
          refine ⟨[(regs DwarfReg.ReturnAddress, elf)],
            by simp [get_stacktrace_multi_go, hE, hD], ?_, by simp, ?_⟩
          · intro p hp
            rcases List.mem_singleton.mp hp with h
            subst h
            exact hE
          · intro hcontra
            simp at hcontra
        | some regs2 =>
          obtain ⟨t', hgo, hprops, hlen, _⟩ := ih regs2
          refine ⟨(regs DwarfReg.ReturnAddress, elf) :: t',
            by simp [get_stacktrace_multi_go, hE, hD, hgo], ?_, ?_, ?_⟩
          · intro p hp
            rcases List.mem_cons.mp hp with h | h
            · subst h
              exact hE
            · exact hprops p h
          · simp only [List.length_cons]
            omega
          · intro hcontra
            simp at hcontra

/-- C9: in multi-image unwinding over images that all have a `.text`
section, the walk never aborts; every recorded (address, image) pair is
tagged with the first image (in list order) whose `.text` range contains
that address, and that image is a member whose range indeed contains the
address; the trace length respects the frame cap (at most `max 1 n`); and
when no image's `.text` range contains the initial return address the
accumulated (empty) partial trace is returned. -/
theorem multi_image_stacktrace_tagged (elfs : List ElfParser) (kregs : kvm_regs)
    (num_frames : Nat)
    (htext : ∀ e ∈ elfs, ∃ lo hi, e.section_limits ".text" = .found (lo, hi)) :
    ∃ t, ElfParser.get_stacktrace_multi elfs kregs num_frames = some t ∧
      (∀ p ∈ t, elf_with_addr_in_text elfs p.1 = some (some p.2)) ∧
      (∀ p ∈ t, p.2 ∈ elfs ∧ ∃ lo hi, p.2.section_limits ".text" = .found (lo, hi) ∧
        lo ≤ p.1 ∧ p.1 < hi) ∧
      t.length ≤ max 1 num_frames ∧
      (elf_with_addr_in_text elfs kregs.rip = some none → t = []) := by
  obtain ⟨t, hgo, hfirst, hlen, hemp⟩ :=
    multi_go_spec elfs htext (num_frames - 1) (kvm_to_dwarf_regs kregs)
  refine ⟨t, hgo, hfirst, ?_, ?_, hemp⟩
  · intro p hp
    exact elf_with_addr_in_text_sound elfs p.1 p.2 (hfirst p hp)
  · omega

/-- First image for the C9/C10 witnesses: a fixed-address image whose
`.text` range is `[0x1000, 0x2000)`. -/
def c9_e1 : ElfParser :=
  { m_type := ET_EXEC
    m_entry := 0x1000
    m_load_addr := 0x1000
    m_initial_brk := 0
    m_segments := []
    m_sections := [⟨".text", 1, 6, 0x1000, 0, 0x1000, 0, 0, 16, 0⟩]
    m_symbols := []
    m_debug := fun _ => none }

/-- Second image for the C9 witness: `.text` range `[0x3000, 0x4000)`. -/
def c9_e2 : ElfParser :=
  { m_type := ET_EXEC
    m_entry := 0x3000
    m_load_addr := 0x3000
    m_initial_brk := 0
    m_segments := []
    m_sections := [⟨".text", 1, 6, 0x3000, 0, 0x1000, 0, 0, 16, 0⟩]
    m_symbols := []
    m_debug := fun _ => none }

/-- Register snapshot for the C9 witness, faulting at `0x1500` (inside the
first image's `.text`). -/
def c9_kregs : kvm_regs :=
  ⟨0, 0, 0, 0, 0, 0, 0x7000, 0, 0, 0, 0, 0, 0, 0, 0, 0, 0x1500, 0⟩

/-- Witness for C9: the tagged walk over the two concrete images. -/
theorem multi_image_stacktrace_tagged_witness :
    ∃ t, ElfParser.get_stacktrace_multi [c9_e1, c9_e2] c9_kregs 5 = some t ∧
      (∀ p ∈ t, elf_with_addr_in_text [c9_e1, c9_e2] p.1 = some (some p.2)) ∧
      (∀ p ∈ t, p.2 ∈ [c9_e1, c9_e2] ∧
        ∃ lo hi, p.2.section_limits ".text" = .found (lo, hi) ∧
          lo ≤ p.1 ∧ p.1 < hi) ∧
      t.length ≤ max 1 5 ∧
      (elf_with_addr_in_text [c9_e1, c9_e2] c9_kregs.rip = some none → t = []) := by
  refine multi_image_stacktrace_tagged [c9_e1, c9_e2] c9_kregs 5 ?_
  intro e he
  rcases List.mem_cons.mp he with h | h
  · subst h
    exact ⟨0x1000, 0x2000, by decide⟩
  · rcases List.mem_singleton.mp h with h2
    subst h2
    exact ⟨0x3000, 0x4000, by decide⟩

/-- Every single-image walk starts by recording the current return-address
slot, whatever the fuel. -/
lemma single_go_cons (e : ElfParser) (lo hi fuel : Nat) (regs : RegFile) :
    ∃ rest, get_stacktrace_go e lo hi fuel regs =
      regs DwarfReg.ReturnAddress :: rest := by
  cases fuel with
  | zero => exact ⟨[], rfl⟩
  | succ f => exact ⟨_, rfl⟩

/-- C10: the single-image walk records the initial return address (the
snapshot's `rip`) before any check, so as long as the image has a `.text`
section the trace has at least one entry for every snapshot and frame cap;
with frame cap `0` the trace is exactly `[rip]` (one entry, exceeding the
cap); the multi-image walk instead returns the empty trace whenever no
image's `.text` range contains the initial address. -/
theorem single_stacktrace_first_entry_unchecked :
    (∀ (e : ElfParser) (kregs : kvm_regs) (num_frames lo hi : Nat),
      e.section_limits ".text" = .found (lo, hi) →
      ∃ t, e.get_stacktrace kregs num_frames = some t ∧
        t.head? = some kregs.rip ∧ 1 ≤ t.length) ∧
    (∀ (e : ElfParser) (kregs : kvm_regs) (lo hi : Nat),
      e.section_limits ".text" = .found (lo, hi) →
      e.get_stacktrace kregs 0 = some [kregs.rip]) ∧
    (∀ (elfs : List ElfParser) (kregs : kvm_regs) (num_frames : Nat),
      elf_with_addr_in_text elfs kregs.rip = some none →
      ElfParser.get_stacktrace_multi elfs kregs num_frames = some []) := by
  refine ⟨?_, ?_, ?_⟩
  · intro e kregs num_frames lo hi hsl
    obtain ⟨rest, hcons⟩ := single_go_cons e lo hi (num_frames - 1) (kvm_to_dwarf_regs kregs)
    refine ⟨get_stacktrace_go e lo hi (num_frames - 1) (kvm_to_dwarf_regs kregs),
      by simp [ElfParser.get_stacktrace, hsl], ?_, ?_⟩
    · rw [hcons]
      rfl
    · rw [hcons]
      simp
  · intro e kregs lo hi hsl
    simp only [ElfParser.get_stacktrace, hsl]
    rfl
  · intro elfs kregs num_frames hE
    have hE' : elf_with_addr_in_text elfs
        (kvm_to_dwarf_regs kregs DwarfReg.ReturnAddress) = some none := hE
    cases hn : num_frames - 1 with
    | zero => simp [ElfParser.get_stacktrace_multi, hn, get_stacktrace_multi_go, hE']
    | succ f => simp [ElfParser.get_stacktrace_multi, hn, get_stacktrace_multi_go, hE']

/-- Register snapshot for the C10 witness, faulting at `0x9999` — outside
`c9_e1`'s `.text` range `[0x1000, 0x2000)`. -/
def c10_kregs : kvm_regs :=
  ⟨0, 0, 0, 0, 0, 0, 0x7000, 0, 0, 0, 0, 0, 0, 0, 0, 0, 0x9999, 0⟩

/-- Witness for C10: with frame cap 0 and an out-of-`.text` initial
address the single-image trace is exactly `[0x9999]` (length 1 > cap 0),
and the multi-image walk over an empty image list returns `[]`. -/
theorem single_stacktrace_first_entry_unchecked_witness :
    (∃ t, c9_e1.get_stacktrace c10_kregs 0 = some t ∧
      t.head? = some c10_kregs.rip ∧ 1 ≤ t.length) ∧
    c9_e1.get_stacktrace c10_kregs 0 = some [0x9999] ∧
    ElfParser.get_stacktrace_multi [] c10_kregs 3 = some [] := by
  refine ⟨single_stacktrace_first_entry_unchecked.1 c9_e1 c10_kregs 0 0x1000 0x2000
      (by decide), ?_, ?_⟩
  · exact single_stacktrace_first_entry_unchecked.2.1 c9_e1 c10_kregs 0x1000 0x2000
      (by decide)
  · exact single_stacktrace_first_entry_unchecked.2.2 [] c10_kregs 3 rfl

end KvmFuzz
